import Mathlib

/-!
Verification of the BnpC CRP/DPMM MCMC engine (`libs/CRP.py`).

The engine's mutable state relevant to the cluster-bookkeeping claims is
shallowly embedded as `CRPState`:
* `assignment` models `self.assignment`, the cluster id of each cell
  (a vector of length `cells_total`);
* `cpc` models the Python dict `self.cells_per_cluster` as a partial map
  from cluster id to member count (`none` = key absent).

All randomness (permutation order, categorical draws, accept decisions) is
passed in as explicit arguments, so each Python sampling statement becomes a
function of the drawn value.
-/

structure CRPState where
  assignment : List Nat
  cpc : Nat → Option Nat

/-- The bookkeeping invariant maintained by the code: the
`cells_per_cluster` dict holds exactly the multiset of cluster sizes, i.e.
a key is present iff its cluster is inhabited, and its value is the exact
number of cells assigned to it.  The second conjunct is the id-range
invariant (cluster ids lie in `[0, N)`). -/
def StateWF (s : CRPState) : Prop :=
  (∀ c, s.cpc c = if s.assignment.count c = 0 then none
                  else some (s.assignment.count c)) ∧
  (∀ x ∈ s.assignment, x < s.assignment.length)

/-- `min(self._clusters.difference(self.assignment))` with
`self._clusters = set(range(cells_total))`: the smallest id in `[0, n)` not
occurring in `assignment`.  (Python raises `ValueError` on an empty set; we
return `n` in that unreachable case.) -/
def get_empty_cluster (n : Nat) (assignment : List Nat) : Nat :=
  (((List.range n).filter (fun c => decide (c ∉ assignment)))).headD n

/-- Removal of one cell from its cluster
(`update_assignments_Gibbs`, lines 281-285):
`if cells_per_cluster[old] == 1: del cells_per_cluster[old]
 else: cells_per_cluster[old] -= 1`.
A missing key would be a Python `KeyError`; that branch is unreachable for
a well-formed table and we leave the map unchanged there. -/
def removeFromCluster (cpc : Nat → Option Nat) (old : Nat) : Nat → Option Nat :=
  fun c =>
    if c = old then
      match cpc old with
      | some 1 => none
      | some m => some (m - 1)
      | none => none
    else cpc c

/-- Re-insertion of the cell (lines 299-304).  For an existing cluster the
code runs `cells_per_cluster[new] += 1`; for a fresh cluster it first sets
the entry to `0` and then increments, so in both cases the new count is
`getD 0 + 1`. -/
def incrCluster (cpc : Nat → Option Nat) (cid : Nat) : Nat → Option Nat :=
  fun c => if c = cid then some ((cpc cid).getD 0 + 1) else cpc c

/-- One iteration of the `update_assignments_Gibbs` loop for cell `cell`.
`pick` is the categorical draw: `some cid` = join existing cluster `cid`,
`none` = the `-1` outcome, i.e. start a new cluster whose id is the
smallest id absent from the assignment with `cell` masked out (the code
sets `assignment[cell] = -1` before calling `get_empty_cluster`, which is
membership-equivalent to erasing position `cell`). -/
def gibbsCellStep (s : CRPState) (cell : Nat) (pick : Option Nat) : CRPState :=
  let old := s.assignment.getD cell 0
  let cpc1 := removeFromCluster s.cpc old
  let newId :=
    match pick with
    | some cid => cid
    | none => get_empty_cluster s.assignment.length (s.assignment.eraseIdx cell)
  { assignment := s.assignment.set cell newId
    cpc := incrCluster cpc1 newId }

/-- A full Gibbs sweep: the loop
`for cell_id in np.random.permutation(self.cells_total)` together with the
per-cell categorical draws, both supplied as the `moves` list. -/
def gibbsSweep (s : CRPState) (moves : List (Nat × Option Nat)) : CRPState :=
  moves.foldl (fun t mv => gibbsCellStep t mv.1 mv.2) s

/-- The support of the random draws actually made by
`update_assignments_Gibbs`: each processed cell index is in range, and a
`some cid` draw comes from `np.append(cluster_ids, -1)` where
`cluster_ids` are the clusters still inhabited after the cell was removed,
i.e. the ids occurring among the other cells. -/
def ValidMoves (s : CRPState) : List (Nat × Option Nat) → Prop
  | [] => True
  | mv :: rest =>
      mv.1 < s.assignment.length ∧
      (∀ cid, mv.2 = some cid → cid ∈ s.assignment.eraseIdx mv.1) ∧
      ValidMoves (gibbsCellStep s mv.1 mv.2) rest

/-- `self.assignment[new_cluster_cells] = new_cluster` (numpy fancy-index
assignment): set every listed position to `cid`. -/
def assignCells (assignment : List Nat) (cells : List Nat) (cid : Nat) : List Nat :=
  cells.foldl (fun a i => a.set i cid) assignment

/-- The accepted branch of `do_split_move` (lines 720-734): `moved` is
`new_cluster_cells` (the members reassigned to the new cluster, i.e.
`S[new_assignment == 1]` plus `obs_j`), given here as a list of cell
indices.  A fresh id is taken from `get_empty_cluster`, the moved cells are
reassigned, the new cluster's count is set to `moved.length` and the old
cluster's count is decremented by the same amount (`-=` on the dict entry,
modelled with `getD 0` since a missing key would be a `KeyError`). -/
def do_split_move_accept (s : CRPState) (clust_i : Nat) (moved : List Nat) : CRPState :=
  let new_cluster := get_empty_cluster s.assignment.length s.assignment
  { assignment := assignCells s.assignment moved new_cluster
    cpc := fun c =>
      if c = new_cluster then some moved.length
      else if c = clust_i then some ((s.cpc clust_i).getD 0 - moved.length)
      else s.cpc c }

/-- The accepted branch of `do_merge_move` (lines 771-779): every cell of
`cl_j` is reassigned to `cl_i` (`assignment[cl_j_cells] = cl_i` where
`cl_j_cells` are exactly the cells with value `cl_j`), `cl_i`'s count grows
by `cl_j_cells.size` and key `cl_j` is deleted. -/
def do_merge_move_accept (s : CRPState) (cl_i cl_j : Nat) : CRPState :=
  { assignment := s.assignment.map (fun v => if v = cl_j then cl_i else v)
    cpc := fun c =>
      if c = cl_j then none
      else if c = cl_i then
        some ((s.cpc cl_i).getD 0 + s.assignment.count cl_j)
      else s.cpc c }

/-- Context in which the accepted split executes: the moved cells are
pairwise-distinct members of `clust_i` (they contain `obs_j`, hence are
nonempty), and `obs_i` is a member of `clust_i` that is not moved. -/
def SplitOk (s : CRPState) (clust_i : Nat) (moved : List Nat) : Prop :=
  moved ≠ [] ∧ moved.Nodup ∧
  (∀ i ∈ moved, i < s.assignment.length ∧ s.assignment.getD i 0 = clust_i) ∧
  (∃ k, k < s.assignment.length ∧ s.assignment.getD k 0 = clust_i ∧ k ∉ moved)

/-- Context in which the accepted merge executes: two distinct inhabited
clusters. -/
def MergeOk (s : CRPState) (cl_i cl_j : Nat) : Prop :=
  cl_i ≠ cl_j ∧ cl_i ∈ s.assignment ∧ cl_j ∈ s.assignment

/-- Total member count recorded in the `cells_per_cluster` table (cluster
ids always lie in `[0, N)`, so summing over that range covers every key). -/
def cpcSum (s : CRPState) : Nat :=
  ∑ c in Finset.range s.assignment.length, (s.cpc c).getD 0

/-- The three properties claimed for the membership table: counts sum to
`N`, a cluster id occurs in the assignment iff it has a positive entry,
and no zero-count entry persists. -/
def TableConsistent (s : CRPState) : Prop :=
  cpcSum s = s.assignment.length ∧
  (∀ c, c ∈ s.assignment ↔ ∃ m, s.cpc c = some m ∧ 0 < m) ∧
  (∀ c, s.cpc c ≠ some 0)

/-- Active cluster ids: the keys of the `cells_per_cluster` dict (ids always
lie in `[0, N)`, so scanning that range enumerates every key). -/
def activeClusterIds (s : CRPState) : List Nat :=
  (List.range s.assignment.length).filter (fun c => (s.cpc c).isSome)

/-- `EPSILON = np.finfo(np.float64).resolution` (line 21), i.e. `1e-15`. -/
def EPSILON : Rat := 1 / 10 ^ 15

/-- The same constant as a real number. -/
noncomputable def EPSILON_R : Real := (EPSILON : Real)

/-! ### Run loop and trace (`_run_MCMC_steps`, `init_MCMC_results`) -/

/-- The result of a fixed-step run: the per-step samples (the five result
arrays `ML`, `MAP`, `assignments`, `DP_alpha`, `params` are written at the
same step index in lockstep, so they are modelled as one list of optional
state snapshots, `none` = still the `np.zeros` fill), plus the reported
`burn_in` index. -/
structure StepsTrace (sigma : Type) where
  samples : List (Option sigma)
  burn_in : Int

/-- Python `int(...)`: truncation toward zero. -/
def pyInt (q : Rat) : Int := if 0 ≤ q then ⌊q⌋ else ⌈q⌉

/-- `init_MCMC_results` (lines 559-570): allocate `np.zeros(steps)` arrays
and record the initial state at index 0 via `update_MCMC_results(results, 0)`. -/
def init_MCMC_results {sigma : Type} (steps : Nat) (s0 : sigma) :
    List (Option sigma) :=
  (List.replicate steps (none : Option sigma)).set 0 (some s0)

/-- The progress condition `step % (steps // 10) == 0 and not silent`
(line 496).  The modulo is evaluated first, so when `steps // 10 == 0`
Python raises `ZeroDivisionError` before `silent` is consulted; division by
zero is the `Except.error` case. -/
def progress_cond (steps step : Nat) (silent : Bool) : Except Unit Bool :=
  if steps / 10 = 0 then Except.error ()
  else Except.ok (decide (step % (steps / 10) = 0) && !silent)

/-- One iteration of the loop in `_run_MCMC_steps` (lines 495-500):
evaluate the progress condition (possibly raising), run `do_MCMC_step`
(abstracted as `stepFn` since its stochastic effect is irrelevant to the
trace shape) and record the new state at index `step` via
`update_MCMC_results`. -/
def stepIter {sigma : Type} (stepFn : sigma → sigma) (steps : Nat)
    (silent : Bool) (acc : sigma × List (Option sigma)) (step : Nat) :
    Except Unit (sigma × List (Option sigma)) := do
  let _ ← progress_cond steps step silent
  let st := stepFn acc.1
  Except.ok (st, acc.2.set step (some st))

/-- `_run_MCMC_steps` (lines 490-503): `steps += 1`, allocate the results
arrays, loop `for step in range(1, steps)`, then report
`burn_in = int(steps * burn_in)`. -/
def run_MCMC_steps {sigma : Type} (stepFn : sigma → sigma) (S : Nat)
    (burn_in : Rat) (s0 : sigma) (silent : Bool) :
    Except Unit (StepsTrace sigma) := do
  let steps := S + 1
  let init := init_MCMC_results steps s0
  let res ← (List.range' 1 S).foldlM (stepIter stepFn steps silent) (s0, init)
  Except.ok ⟨res.2, pyInt ((steps : Rat) * burn_in)⟩

/-! ### Likelihood model (`_calc_ll`, `log_beta_pdf_short`) -/

/-- `np.log` under `np.seterr(all='raise')` (line 20): a nonpositive
argument raises `FloatingPointError` instead of returning `-inf`/`nan`. -/
noncomputable def np_log (x : Real) : Except Unit Real :=
  if x ≤ 0 then Except.error () else Except.ok (Real.log x)

/-- `_Bernoulli_FN` (lines 232-234): `(1-beta_error)**v * beta_error**(1-v)`
for a present value `v ∈ {0, 1}`. -/
noncomputable def Bernoulli_FN (beta_error : Real) (v : Bool) : Real :=
  if v then 1 - beta_error else beta_error

/-- `_Bernoulli_FP` (lines 237-239): `(1-alpha_error)**(1-v) * alpha_error**v`. -/
noncomputable def Bernoulli_FP (alpha_error : Real) (v : Bool) : Real :=
  if v then alpha_error else 1 - alpha_error

/-- The per-feature mixture `theta * FN + (1 - theta) * FP` appearing inside
`np.log` in `_calc_ll` (lines 223-224). -/
noncomputable def mixtureLik (alpha_error beta_error theta : Real) (v : Bool) :
    Real :=
  theta * Bernoulli_FN beta_error v + (1 - theta) * Bernoulli_FP alpha_error v

/-- The list of arguments handed to `np.log` by `_calc_ll`: one mixture
value per present (non-`nan`) feature; `bn.nansum` skips the missing ones. -/
noncomputable def calc_ll_logArgs (alpha_error beta_error : Real)
    (x : List (Option Bool)) (theta : List Real) : List Real :=
  (x.zip theta).filterMap
    (fun p => p.1.map (fun v => mixtureLik alpha_error beta_error p.2 v))

/-- Elementwise `np.log` over a vector: raises on the first nonpositive
entry (numpy evaluates the whole array and raises if any entry is bad;
which entry triggers it is irrelevant, only whether one exists). -/
noncomputable def np_log_list : List Real → Except Unit (List Real)
  | [] => Except.ok []
  | x :: xs => do
    let lx ← np_log x
    let rest ← np_log_list xs
    Except.ok (lx :: rest)

/-- `_calc_ll` (lines 221-229): `bn.nansum(np.log(FN + FP)) + nan_no * const`.
There is no epsilon guard around this `np.log`, so a vanishing mixture
raises. -/
noncomputable def calc_ll (alpha_error beta_error : Real)
    (x : List (Option Bool)) (theta : List Real) (nan_term : Real) :
    Except Unit Real := do
  let logs ← np_log_list (calc_ll_logArgs alpha_error beta_error x theta)
  Except.ok (logs.sum + nan_term)

/-- `log_beta_pdf_short` (lines 101-110): try
`(a-1)*log(x) + (b-1)*log(1-x)`; on `FloatingPointError` substitute
`EPSILON` for the offending argument (`x == 0` picks the first term,
otherwise the second). -/
noncomputable def log_beta_pdf_short (x a b : Real) : Except Unit Real :=
  match (do
      let lx ← np_log x
      let l1x ← np_log (1 - x)
      Except.ok ((a - 1) * lx + (b - 1) * l1x) : Except Unit Real) with
  | Except.ok v => Except.ok v
  | Except.error _ =>
      if x = 0 then Except.ok ((a - 1) * Real.log EPSILON_R)
      else Except.ok ((b - 1) * Real.log EPSILON_R)

/-! ### Stable log normalization fallback (`_normalize_log`) -/

/-- The `except FloatingPointError` branch of `_normalize_log`
(lines 157-161): `[0, log_EPSILON]` if `probs[0] > probs[1]`, else
`[log_EPSILON, 0]` (log-space output). -/
noncomputable def normalize_log_fallback (p0 p1 : Real) : Real × Real :=
  if p0 > p1 then (0, Real.log EPSILON_R) else (Real.log EPSILON_R, 0)

/-! ### CRP prior (`log_CRP_prior`, `init_DP_prior`) -/

/-- `log_CRP_prior` (lines 128-130): `log(n_i) - log(n - 1 + a)`. -/
noncomputable def log_CRP_prior (n_i n a : Real) : Real :=
  Real.log n_i - Real.log (n - 1 + a)

/-- `init_DP_prior` (lines 203-206):
`cl_vals = append(arange(1, n+1), DP_alpha)`,
`CRP_prior = append(0, log_CRP_prior(cl_vals, n, DP_alpha))`. -/
noncomputable def init_DP_prior (n : Nat) (alpha : Real) : List Real :=
  0 :: (((List.range n).map (fun (i : Nat) => (i : Real) + 1)) ++ [alpha]).map
    (fun v => log_CRP_prior v n alpha)

/-! ### Concentration update (`update_DP_alpha`) -/

/-- The concentration state touched by `update_DP_alpha`: `self.DP_alpha`
and the CRP prior table rebuilt by `init_DP_prior`. -/
structure DPAlphaState where
  DP_alpha : Real
  CRP_prior : List Real

/-- `update_DP_alpha` (lines 400-426) with the random draws passed in:
`log_eta = log(eta)` for the Beta-drawn auxiliary variable, `u` the uniform
draw deciding the mixture component, and `gamma_draw shape scale` the value
returned by `np.random.gamma(shape, scale)`.  Ends with
`self.DP_alpha = max(new_alpha, 1 + EPSILON)` followed by
`self.init_DP_prior()`. -/
noncomputable def update_DP_alpha (a b : Real) (k n : Nat) (log_eta u : Real)
    (gamma_draw : Real → Real → Real) : DPAlphaState :=
  let w := (a + k - 1) / (n * (b - log_eta))
  let pi_eta := w / (1 + w)
  let new_alpha :=
    if u < pi_eta then gamma_draw (a + k) (b - log_eta)
    else gamma_draw (a + k - 1) (b - log_eta)
  let dpa := max new_alpha (1 + EPSILON_R)
  { DP_alpha := dpa, CRP_prior := init_DP_prior n dpa }

/-! ### MH proposal step-size adaptation (`update_MH_std`) -/

/-- `update_MH_std` (lines 429-447) acting on `param_proposal_sd` given the
accept/reject counter.  The `ratio > 0.55` branch contains the statement
`self.param_proposal_sd + np.array([0.8, 0.9, 1.])`, a bare expression
whose result is discarded, modelled faithfully by the unused `let`. -/
def update_MH_std (sd : List Rat) (counter : Rat × Rat) (mult : Rat) :
    List Rat :=
  let acc_rate := (counter.1 + 1) / (counter.1 + counter.2 + 1)
  if acc_rate < 45/100 then sd.map (fun x => min 1 (max 0 (x / mult)))
  else if acc_rate > 55/100 then
    let sd2 := sd.map (fun x => min 1 (max 0 (x * mult)))
    let _reseed := if sd2.all (fun x => x == 1)
      then sd2.zipWith (fun x y => x + y) [8/10, 9/10, 1] else sd2
    sd2
  else sd

/-! ### Trace storage growth (`_extend_results_array`, `update_MCMC_results`) -/

/-- The five arrays of the results dict (element type abstracted: the claim
is about which entries survive reallocation, not their float values). -/
structure MCMCResults (alpha : Type) where
  ML : List alpha
  MAP : List alpha
  DP_alpha : List alpha
  assignments : List (List alpha)
  params : List (List (List alpha))

/-- `_extend_results_array` (lines 608-625): append
`add_size = min(200, ML.size)` zero entries to every array
(`np.append` copies the old data in front of the new zero block). -/
def extend_results_array {alpha : Type} (z : alpha) (cells_total : Nat)
    (muts_total : Nat) (r : MCMCResults alpha) : MCMCResults alpha :=
  let add_size := min 200 r.ML.length
  { ML := r.ML ++ List.replicate add_size z
    MAP := r.MAP ++ List.replicate add_size z
    DP_alpha := r.DP_alpha ++ List.replicate add_size z
    assignments := r.assignments
      ++ List.replicate add_size (List.replicate cells_total z)
    params := r.params ++ List.replicate add_size
      (List.replicate (r.params.headD []).length (List.replicate muts_total z)) }

/-- The `except IndexError` branch of `update_MCMC_results` (lines 597-602):
`np.pad(results['params'], [(0,0), (0, cl_diff), (0,0)])` pads the cluster
axis of every step slice with `cl_diff` zero rows of width `muts_total`. -/
def pad_params_clusters {alpha : Type} (z : alpha) (cl_diff muts_total : Nat)
    (params : List (List (List alpha))) : List (List (List alpha)) :=
  params.map (fun step_slice =>
    step_slice ++ List.replicate cl_diff (List.replicate muts_total z))

/-! ### List helper lemmas -/

lemma getD_mem {α : Type} (l : List α) (i : Nat) (d : α) (h : i < l.length) :
    l.getD i d ∈ l := by
  induction l generalizing i with
  | nil => simp at h
  | cons a t ih =>
    cases i with
    | zero => simp
    | succ j =>
      have hj : j < t.length := by simpa using h
      simpa using Or.inr (ih j hj)

lemma count_eraseIdx (l : List Nat) (i c : Nat) (h : i < l.length) :
    (l.eraseIdx i).count c = l.count c - (if l[i] = c then 1 else 0) := by
  induction l generalizing i with
  | nil => simp at h
  | cons a t ih =>
    cases i with
    | zero => by_cases hac : a = c <;> simp [List.count_cons, hac]
    | succ j =>
      have hj : j < t.length := by simpa using h
      have h1 : (a :: t).eraseIdx (j+1) = a :: t.eraseIdx j := rfl
      rw [h1, List.count_cons, List.count_cons, ih j hj, List.getElem_cons_succ]
      have hb : (if t[j] = c then 1 else 0) ≤ t.count c := by
        by_cases hg : t[j] = c
        · rw [if_pos hg]
          exact List.count_pos_iff.2 (hg ▸ t.getElem_mem hj)
        · rw [if_neg hg]
          exact Nat.zero_le _
      omega

lemma sum_count_range (l : List Nat) (n : Nat) (h : ∀ x ∈ l, x < n) :
    ∑ c in Finset.range n, l.count c = l.length := by
  induction l with
  | nil => simp
  | cons a t ih =>
    have ha : a ∈ Finset.range n := Finset.mem_range.2 (h a (by simp))
    have ht : ∀ x ∈ t, x < n := fun x hx => h x (by simp [hx])
    have hcc : ∀ c, (a :: t).count c = t.count c + if c = a then 1 else 0 := by
      intro c
      by_cases hca : c = a <;> simp [List.count_cons, hca, eq_comm]
    calc ∑ c in Finset.range n, (a :: t).count c
        = ∑ c in Finset.range n, (t.count c + if c = a then 1 else 0) :=
          Finset.sum_congr rfl fun c _ => hcc c
      _ = t.length + 1 := by
          rw [Finset.sum_add_distrib, ih ht,
            Finset.sum_ite_eq' (Finset.range n) a (fun _ => 1), if_pos ha]
      _ = (a :: t).length := by simp

lemma exists_unused_of_length_lt (l : List Nat) (n : Nat) (h : l.length < n) :
    ∃ c, c < n ∧ c ∉ l := by
  by_contra hc
  push_neg at hc
  have hsub : Finset.range n ⊆ l.toFinset := fun c hcm =>
    List.mem_toFinset.2 (hc c (Finset.mem_range.1 hcm))
  have h1 := Finset.card_le_card hsub
  rw [Finset.card_range] at h1
  have h2 := l.toFinset_card_le
  omega

lemma exists_unused_of_not_nodup (l : List Nat) (n : Nat) (hlen : l.length ≤ n)
    (hnd : ¬ l.Nodup) : ∃ c, c < n ∧ c ∉ l := by
  have hdl : l.dedup.length < l.length := by
    rcases Nat.lt_or_ge l.dedup.length l.length with hlt | hge
    · exact hlt
    · exact absurd ((l.dedup_sublist.eq_of_length
        (le_antisymm l.dedup_sublist.length_le hge)) ▸ l.nodup_dedup) hnd
  by_contra hc
  push_neg at hc
  have hsub : Finset.range n ⊆ l.toFinset := fun c hcm =>
    List.mem_toFinset.2 (hc c (Finset.mem_range.1 hcm))
  have h1 := Finset.card_le_card hsub
  rw [Finset.card_range, List.card_toFinset] at h1
  omega

lemma filter_range'_headD_spec (l : List Nat) :
    ∀ (m s : Nat), (∃ c, s ≤ c ∧ c < s + m ∧ c ∉ l) →
      (((List.range' s m).filter (fun c => decide (c ∉ l))).headD (s + m) ∉ l ∧
       ((List.range' s m).filter (fun c => decide (c ∉ l))).headD (s + m) < s + m ∧
       ∀ b, s ≤ b → b < ((List.range' s m).filter (fun c => decide (c ∉ l))).headD (s + m) →
         b ∈ l) := by
  intro m
  induction m with
  | zero =>
    intro s h
    obtain ⟨c, h1, h2, _⟩ := h
    omega
  | succ k ih =>
    intro s h
    obtain ⟨c, hc1, hc2, hc3⟩ := h
    have hr : List.range' s (k+1) = s :: List.range' (s+1) k := by
      simpa using List.range'_succ s k 1
    by_cases hs : s ∈ l
    · have hfil : (List.range' s (k+1)).filter (fun c => decide (c ∉ l))
          = (List.range' (s+1) k).filter (fun c => decide (c ∉ l)) := by
        rw [hr]; simp [hs]
      have hex : ∃ c, s+1 ≤ c ∧ c < (s+1) + k ∧ c ∉ l := by
        refine ⟨c, ?_, by omega, hc3⟩
        rcases Nat.eq_or_lt_of_le hc1 with rfl | hlt
        · exact absurd hs hc3
        · omega
      have hIH := ih (s+1) hex
      have harith : s + (k+1) = (s+1) + k := by omega
      rw [hfil, harith]
      refine ⟨hIH.1, hIH.2.1, ?_⟩
      intro b hb1 hb2
      by_cases hbs : b = s
      · exact hbs ▸ hs
      · exact hIH.2.2 b (by omega) hb2
    · have hfil : (List.range' s (k+1)).filter (fun c => decide (c ∉ l))
          = s :: (List.range' (s+1) k).filter (fun c => decide (c ∉ l)) := by
        rw [hr]; simp [hs]
      rw [hfil]
      simp only [List.headD_cons]
      exact ⟨hs, by omega,
        fun b hb1 hb2 => absurd (Nat.lt_of_le_of_lt hb1 hb2) (lt_irrefl s)⟩

lemma get_empty_cluster_spec (n : Nat) (l : List Nat) (hfree : ∃ c, c < n ∧ c ∉ l) :
    get_empty_cluster n l ∉ l ∧ get_empty_cluster n l < n ∧
      ∀ b < get_empty_cluster n l, b ∈ l := by
  obtain ⟨c, hc1, hc2⟩ := hfree
  have h := filter_range'_headD_spec l n 0 ⟨c, Nat.zero_le c, by omega, hc2⟩
  rw [get_empty_cluster, List.range_eq_range']
  simp only [Nat.zero_add] at h
  exact ⟨h.1, h.2.1, fun b hb => h.2.2 b (Nat.zero_le b) hb⟩

/-! ### The table invariant and its preservation -/

lemma StateWF.tableConsistent {s : CRPState} (h : StateWF s) : TableConsistent s := by
  obtain ⟨hw, hb⟩ := h
  refine ⟨?_, ?_, ?_⟩
  · rw [cpcSum]
    have hpt : ∀ c ∈ Finset.range s.assignment.length,
        (s.cpc c).getD 0 = s.assignment.count c := by
      intro c _
      rw [hw c]
      by_cases hc : s.assignment.count c = 0 <;> simp [hc]
    rw [Finset.sum_congr rfl hpt]
    exact sum_count_range _ _ hb
  · intro c
    constructor
    · intro hc
      have hcp : 0 < s.assignment.count c := List.count_pos_iff.2 hc
      refine ⟨s.assignment.count c, ?_, hcp⟩
      rw [hw c, if_neg (Nat.pos_iff_ne_zero.mp hcp)]
    · rintro ⟨m, hm, hmpos⟩
      rw [hw c] at hm
      by_cases hc : s.assignment.count c = 0
      · rw [if_pos hc] at hm
        exact absurd hm (by simp)
      · exact List.count_pos_iff.1 (Nat.pos_of_ne_zero hc)
  · intro c
    rw [hw c]
    by_cases hc : s.assignment.count c = 0
    · rw [if_pos hc]
      simp
    · rw [if_neg hc]
      simp [hc]

lemma stepCore_WF (s : CRPState) (hwf : StateWF s) (cell : Nat)
    (hcell : cell < s.assignment.length) (newId : Nat)
    (hid : newId < s.assignment.length) :
    StateWF { assignment := s.assignment.set cell newId
              cpc := incrCluster (removeFromCluster s.cpc (s.assignment.getD cell 0)) newId } := by
  obtain ⟨hw, hb⟩ := hwf
  set old := s.assignment.getD cell 0 with hold
  have holdmem : old ∈ s.assignment := getD_mem _ cell 0 hcell
  have holdpos : 0 < s.assignment.count old := List.count_pos_iff.2 holdmem
  have hcpc_old : s.cpc old = some (s.assignment.count old) := by
    rw [hw old, if_neg (Nat.pos_iff_ne_zero.mp holdpos)]
  obtain ⟨m, hm⟩ : ∃ m, s.assignment.count old = m + 1 :=
    ⟨s.assignment.count old - 1, by omega⟩
  have hrem : ∀ c, removeFromCluster s.cpc old c
      = if c = old then
          (if s.assignment.count old - 1 = 0 then none
           else some (s.assignment.count old - 1))
        else s.cpc c := by
    intro c
    simp only [removeFromCluster]
    by_cases hco : c = old
    · rw [if_pos hco, if_pos hco, hcpc_old, hm]
      cases m with
      | zero => simp
      | succ k => simp
    · rw [if_neg hco, if_neg hco]
  have hcount : ∀ c, (s.assignment.set cell newId).count c
      = s.assignment.count c - (if old = c then 1 else 0)
        + (if newId = c then 1 else 0) := by
    intro c
    rw [List.count_set]
    simp only [beq_iff_eq]
    rw [← List.getD_eq_getElem s.assignment 0 hcell, ← hold]
  constructor
  · intro c
    simp only [incrCluster, hrem, hcount c]
    by_cases h1 : c = newId
    · by_cases h2 : c = old
      · have h3 : newId = old := h1.symm.trans h2
        have hK : ((if s.assignment.count old - 1 = 0 then none
            else some (s.assignment.count old - 1)) : Option Nat).getD 0
            = s.assignment.count old - 1 := by
          by_cases h4 : s.assignment.count old - 1 = 0 <;> simp [h4]
        rw [if_pos h1, if_pos h3, hK, h2, if_pos rfl, if_pos h3]
        have h5 : ¬(s.assignment.count old - 1 + 1 = 0) := by omega
        rw [if_neg h5]
      · have h3 : ¬ newId = old := fun h => h2 (h1.trans h)
        have hgd : (s.cpc newId).getD 0 = s.assignment.count newId := by
          rw [hw newId]
          by_cases hz : s.assignment.count newId = 0 <;> simp [hz]
        rw [if_pos h1, if_neg h3, hgd, if_neg (fun h : old = c => h2 h.symm),
          if_pos h1.symm]
        have h5 : ¬(s.assignment.count c - 0 + 1 = 0) := by omega
        rw [if_neg h5, h1]
        simp
    · rw [if_neg h1]
      by_cases h2 : c = old
      · rw [if_pos h2, h2, if_pos rfl,
          if_neg (fun h : newId = old => h1 (h2.trans h.symm))]
        simp
      · rw [if_neg h2, if_neg (fun h : old = c => h2 h.symm),
          if_neg (fun h : newId = c => h1 h.symm), hw c]
        simp
  · intro x hx
    rw [List.length_set]
    rcases List.mem_or_eq_of_mem_set hx with hmem | rfl
    · exact hb x hmem
    · exact hid

lemma gibbsCellStep_WF {s : CRPState} (hwf : StateWF s) {cell : Nat}
    (hcell : cell < s.assignment.length) (pick : Option Nat)
    (hpick : ∀ cid, pick = some cid → cid ∈ s.assignment.eraseIdx cell) :
    StateWF (gibbsCellStep s cell pick) := by
  cases pick with
  | some cid =>
    have hmem : cid ∈ s.assignment :=
      (List.eraseIdx_sublist s.assignment cell).subset (hpick cid rfl)
    exact stepCore_WF s hwf cell hcell cid (hwf.2 cid hmem)
  | none =>
    have hlen : (s.assignment.eraseIdx cell).length < s.assignment.length := by
      rw [List.length_eraseIdx, if_pos hcell]
      omega
    have hspec := get_empty_cluster_spec s.assignment.length
      (s.assignment.eraseIdx cell) (exists_unused_of_length_lt _ _ hlen)
    exact stepCore_WF s hwf cell hcell _ hspec.2.1

lemma gibbsSweep_WF : ∀ (moves : List (Nat × Option Nat)) (s : CRPState),
    StateWF s → ValidMoves s moves → StateWF (gibbsSweep s moves) := by
  intro moves
  induction moves with
  | nil =>
    intro s hwf _
    exact hwf
  | cons mv rest ih =>
    intro s hwf hvm
    simp only [ValidMoves] at hvm
    obtain ⟨h1, h2, h3⟩ := hvm
    exact ih (gibbsCellStep s mv.1 mv.2) (gibbsCellStep_WF hwf h1 mv.2 h2) h3

lemma getD_set_ne (l : List Nat) (i j v d : Nat) (h : i ≠ j) :
    (l.set i v).getD j d = l.getD j d := by
  rw [List.getD_eq_getElem?_getD, List.getD_eq_getElem?_getD,
    List.getElem?_set_ne h]

lemma assignCells_length : ∀ (cells : List Nat) (l : List Nat) (v : Nat),
    (assignCells l cells v).length = l.length := by
  intro cells
  induction cells with
  | nil => intro l v; rfl
  | cons i rest ih =>
    intro l v
    show (assignCells (l.set i v) rest v).length = l.length
    rw [ih, List.length_set]

lemma assignCells_getD_of_notMem :
    ∀ (cells : List Nat) (l : List Nat) (v j d : Nat),
      j ∉ cells → (assignCells l cells v).getD j d = l.getD j d := by
  intro cells
  induction cells with
  | nil => intro l v j d _; rfl
  | cons i rest ih =>
    intro l v j d hj
    show (assignCells (l.set i v) rest v).getD j d = l.getD j d
    rw [ih _ _ _ _ (fun h => hj (List.mem_cons_of_mem i h)),
      getD_set_ne l i j v d (fun h => hj (h ▸ List.mem_cons_self i rest))]

lemma assignCells_mem : ∀ (cells l : List Nat) (v x : Nat),
    x ∈ assignCells l cells v → x ∈ l ∨ x = v := by
  intro cells
  induction cells with
  | nil => intro l v x hx; exact Or.inl hx
  | cons i rest ih =>
    intro l v x hx
    rcases ih (l.set i v) v x hx with hmem | hxv
    · rcases List.mem_or_eq_of_mem_set hmem with h | h
      · exact Or.inl h
      · exact Or.inr h
    · exact Or.inr hxv

lemma assignCells_count (v w : Nat) (hvw : w ≠ v) :
    ∀ (cells : List Nat) (l : List Nat), cells.Nodup →
      (∀ i ∈ cells, i < l.length ∧ l.getD i 0 = w) →
      ∀ c, (assignCells l cells v).count c
        = l.count c - (if w = c then cells.length else 0)
          + (if v = c then cells.length else 0) := by
  intro cells
  induction cells with
  | nil => intro l _ _ c; simp [assignCells]
  | cons i rest ih =>
    intro l hnd hmem c
    obtain ⟨hil, hiw⟩ := hmem i (List.mem_cons_self i rest)
    have hndr : rest.Nodup := (List.nodup_cons.mp hnd).2
    have hir : i ∉ rest := (List.nodup_cons.mp hnd).1
    have hmem2 : ∀ j ∈ rest, j < (l.set i v).length ∧ (l.set i v).getD j 0 = w := by
      intro j hj
      obtain ⟨hjl, hjw⟩ := hmem j (List.mem_cons_of_mem i hj)
      refine ⟨by rw [List.length_set]; exact hjl, ?_⟩
      rw [getD_set_ne l i j v 0 (fun h => hir (h ▸ hj)), hjw]
    have hset : (l.set i v).count c
        = l.count c - (if w = c then 1 else 0) + (if v = c then 1 else 0) := by
      have hli : l[i] = w := by rw [← List.getD_eq_getElem l 0 hil, hiw]
      rw [List.count_set v c l i hil, hli]
      simp only [beq_iff_eq]
    show (assignCells (l.set i v) rest v).count c = _
    rw [ih (l.set i v) hndr hmem2 c, hset, List.length_cons]
    by_cases hwc : w = c
    · have hvc : ¬ v = c := fun h => hvw (hwc.trans h.symm)
      rw [if_pos hwc, if_pos hwc, if_pos hwc, if_neg hvc, if_neg hvc, if_neg hvc]
      omega
    · rw [if_neg hwc, if_neg hwc, if_neg hwc]
      by_cases hvc : v = c
      · rw [if_pos hvc, if_pos hvc, if_pos hvc]
        omega
      · rw [if_neg hvc, if_neg hvc, if_neg hvc]
        omega

lemma split_WF {s : CRPState} (hwf : StateWF s) {ci : Nat} {moved : List Nat}
    (hok : SplitOk s ci moved) : StateWF (do_split_move_accept s ci moved) := by
  obtain ⟨hw, hb⟩ := hwf
  obtain ⟨hne, hnd, hmem, k, hk, hkci, hkmoved⟩ := hok
  obtain ⟨i0, hi0⟩ : ∃ i0, i0 ∈ moved := by
    cases moved with
    | nil => exact absurd rfl hne
    | cons a t => exact ⟨a, List.mem_cons_self a t⟩
  obtain ⟨hi0l, hi0w⟩ := hmem i0 hi0
  have hdup : ¬ s.assignment.Nodup := by
    intro hnod
    have hik : i0 ≠ k := fun h => hkmoved (h ▸ hi0)
    have hinj := List.nodup_iff_injective_get.mp hnod
    have heq : s.assignment.get ⟨i0, hi0l⟩ = s.assignment.get ⟨k, hk⟩ := by
      rw [List.get_eq_getElem, List.get_eq_getElem,
        ← List.getD_eq_getElem s.assignment 0 hi0l,
        ← List.getD_eq_getElem s.assignment 0 hk, hi0w, hkci]
    exact hik (Fin.mk.injEq .. ▸ (hinj heq))
  have hfree := exists_unused_of_not_nodup s.assignment s.assignment.length
    le_rfl hdup
  have hspec := get_empty_cluster_spec s.assignment.length s.assignment hfree
  have hcimem : ci ∈ s.assignment := hkci ▸ getD_mem _ k 0 hk
  have hcnt0 : s.assignment.count (get_empty_cluster s.assignment.length
      s.assignment) = 0 := List.count_eq_zero_of_not_mem hspec.1
  have hcinc : ¬ ci = get_empty_cluster s.assignment.length s.assignment :=
    fun h => hspec.1 (h ▸ hcimem)
  have hcnt := assignCells_count (get_empty_cluster s.assignment.length
    s.assignment) ci hcinc moved s.assignment hnd hmem
  have hkk : (assignCells s.assignment moved
      (get_empty_cluster s.assignment.length s.assignment)).getD k 0 = ci := by
    rw [assignCells_getD_of_notMem moved s.assignment _ k 0 hkmoved, hkci]
  have hkpos : 0 < (assignCells s.assignment moved
      (get_empty_cluster s.assignment.length s.assignment)).count ci := by
    apply List.count_pos_iff.2
    have hkl : k < (assignCells s.assignment moved
        (get_empty_cluster s.assignment.length s.assignment)).length := by
      rw [assignCells_length]; exact hk
    exact hkk ▸ getD_mem _ k 0 hkl
  have hmovedpos : 0 < moved.length := List.length_pos.mpr hne
  have hassign : (do_split_move_accept s ci moved).assignment
      = assignCells s.assignment moved
        (get_empty_cluster s.assignment.length s.assignment) := rfl
  have hposci : ¬(s.assignment.count ci - moved.length + 0 = 0) := by
    have h5 := hkpos
    rw [hcnt ci, if_pos rfl, if_neg (fun h : get_empty_cluster
      s.assignment.length s.assignment = ci => hcinc h.symm)] at h5
    omega
  constructor
  · intro c
    show (if c = get_empty_cluster s.assignment.length s.assignment
        then some moved.length
        else if c = ci then some ((s.cpc ci).getD 0 - moved.length)
        else s.cpc c) = _
    rw [hassign, hcnt c]
    by_cases h1 : c = get_empty_cluster s.assignment.length s.assignment
    · rw [if_pos h1, if_neg (fun h : ci = c => hcinc (h.trans h1)),
        if_pos h1.symm, h1, hcnt0]
      have hcond : ¬(0 - 0 + moved.length = 0) := by omega
      rw [if_neg hcond]
      have heq0 : 0 - 0 + moved.length = moved.length := by omega
      rw [heq0]
    · rw [if_neg h1]
      by_cases h2 : c = ci
      · rw [if_pos h2, if_pos h2.symm,
          if_neg (fun h : get_empty_cluster s.assignment.length
            s.assignment = c => h1 h.symm), h2]
        have hgd : (s.cpc ci).getD 0 = s.assignment.count ci := by
          rw [hw ci]
          have h6 : ¬ s.assignment.count ci = 0 :=
            Nat.pos_iff_ne_zero.mp (List.count_pos_iff.2 hcimem)
          rw [if_neg h6]
          rfl
        rw [hgd, if_neg hposci]
        have heq1 : s.assignment.count ci - moved.length + 0
            = s.assignment.count ci - moved.length := by omega
        rw [heq1]
      · rw [if_neg h2, if_neg (fun h : ci = c => h2 h.symm),
          if_neg (fun h : get_empty_cluster s.assignment.length s.assignment
            = c => h1 h.symm), hw c]
        have heq2 : s.assignment.count c - 0 + 0 = s.assignment.count c := by
          omega
        rw [heq2]
  · intro x hx
    rw [hassign] at hx ⊢
    rw [assignCells_length]
    rcases assignCells_mem moved s.assignment _ x hx with hmem2 | hxv
    · exact hb x hmem2
    · exact hxv ▸ hspec.2.1

lemma count_map_subst (ci cj : Nat) (hne : ci ≠ cj) :
    ∀ (l : List Nat) (c : Nat),
      (l.map (fun v => if v = cj then ci else v)).count c
        = if c = cj then 0
          else if c = ci then l.count ci + l.count cj
          else l.count c := by
  intro l
  induction l with
  | nil => intro c; simp
  | cons a t ih =>
    intro c
    simp only [List.map_cons, List.count_cons, ih c]
    by_cases hccj : c = cj <;> by_cases hcci : c = ci <;>
      by_cases hacj : a = cj <;> by_cases haci : a = ci <;>
        (try subst hccj) <;> (try subst hcci) <;> (try subst hacj) <;>
        (try subst haci) <;>
        simp_all [List.count_cons, hne, Ne.symm hne] <;> (try omega) <;>
        simp [Ne.symm hccj, Ne.symm hcci]

lemma merge_WF {s : CRPState} (hwf : StateWF s) {ci cj : Nat}
    (hok : MergeOk s ci cj) : StateWF (do_merge_move_accept s ci cj) := by
  obtain ⟨hw, hb⟩ := hwf
  obtain ⟨hne, hci, hcj⟩ := hok
  have hcip : 0 < s.assignment.count ci := List.count_pos_iff.2 hci
  have hcjp : 0 < s.assignment.count cj := List.count_pos_iff.2 hcj
  have hassign : (do_merge_move_accept s ci cj).assignment
      = s.assignment.map (fun v => if v = cj then ci else v) := rfl
  constructor
  · intro c
    show (if c = cj then none
        else if c = ci then some ((s.cpc ci).getD 0 + s.assignment.count cj)
        else s.cpc c) = _
    rw [hassign, count_map_subst ci cj hne s.assignment c]
    by_cases h1 : c = cj
    · rw [if_pos h1, if_pos h1]
      rw [if_pos rfl]
    · rw [if_neg h1, if_neg h1]
      by_cases h2 : c = ci
      · rw [if_pos h2, if_pos h2]
        have hgd : (s.cpc ci).getD 0 = s.assignment.count ci := by
          rw [hw ci, if_neg (Nat.pos_iff_ne_zero.mp hcip)]
          rfl
        have hsum : ¬(s.assignment.count ci + s.assignment.count cj = 0) := by
          omega
        rw [hgd, if_neg hsum]
      · rw [if_neg h2, if_neg h2, hw c]
  · intro x hx
    rw [hassign] at hx ⊢
    rw [List.length_map]
    obtain ⟨v, hv, hvx⟩ := List.mem_map.mp hx
    by_cases hvcj : v = cj
    · rw [if_pos hvcj] at hvx
      exact hvx ▸ hb ci hci
    · rw [if_neg hvcj] at hvx
      exact hvx ▸ hb v hv

/-! ### Claim theorems -/

/-- C1: after every operation that mutates the assignment — a full Gibbs
reassignment sweep (`update_assignments_Gibbs`), an accepted split
(`do_split_move`) and an accepted merge (`do_merge_move`) — the
`cells_per_cluster` table stays consistent: its member counts sum to the
total number of observations N, a cluster id occurs in the assignment
vector iff it has a positive entry in the table, and no zero-count entry
remains. -/
theorem crp_state_invariants_preserved (s : CRPState) (hwf : StateWF s) :
    (∀ moves, ValidMoves s moves →
      StateWF (gibbsSweep s moves) ∧ TableConsistent (gibbsSweep s moves)) ∧
    (∀ ci moved, SplitOk s ci moved →
      StateWF (do_split_move_accept s ci moved) ∧
        TableConsistent (do_split_move_accept s ci moved)) ∧
    (∀ ci cj, MergeOk s ci cj →
      StateWF (do_merge_move_accept s ci cj) ∧
        TableConsistent (do_merge_move_accept s ci cj)) := by
  refine ⟨fun moves hvm => ?_, fun ci moved hok => ?_, fun ci cj hok => ?_⟩
  · have h := gibbsSweep_WF moves s hwf hvm
    exact ⟨h, h.tableConsistent⟩
  · have h := split_WF hwf hok
    exact ⟨h, h.tableConsistent⟩
  · have h := merge_WF hwf hok
    exact ⟨h, h.tableConsistent⟩

/-- Witness for C1: concrete 3-cell state with clusters {0 ↦ 2 cells,
1 ↦ 1 cell}; a Gibbs reassignment of cell 0 to cluster 0 and an accepted
merge of clusters 0 and 1 both leave the table consistent. -/
theorem crp_state_invariants_preserved_witness :
    TableConsistent (gibbsSweep
      ⟨[0, 0, 1], fun c => if c = 0 then some 2
        else if c = 1 then some 1 else none⟩ [(0, some 0)]) ∧
    TableConsistent (do_merge_move_accept
      ⟨[0, 0, 1], fun c => if c = 0 then some 2
        else if c = 1 then some 1 else none⟩ 0 1) := by
  have hwf : StateWF ⟨[0, 0, 1], fun c => if c = 0 then some 2
      else if c = 1 then some 1 else none⟩ := by
    constructor
    · intro c
      match c with
      | 0 => decide
      | 1 => decide
      | (n+2) =>
        show (if n + 2 = 0 then some 2
          else if n + 2 = 1 then some 1 else none) = _
        rw [if_neg (by omega), if_neg (by omega)]
        have hcnt : List.count (n+2) [0, 0, 1] = 0 := by
          apply List.count_eq_zero_of_not_mem
          intro hmem
          simp at hmem
        rw [hcnt]
        simp
    · intro x hx
      have hx3 : x = 0 ∨ x = 0 ∨ x = 1 := by simpa using hx
      have hlen : ([0, 0, 1] : List Nat).length = 3 := rfl
      show x < ([0, 0, 1] : List Nat).length
      rw [hlen]
      omega
  have hth := crp_state_invariants_preserved _ hwf
  constructor
  · refine (hth.1 [(0, some 0)] ?_).2
    show (0 : Nat) < 3 ∧ _ ∧ True
    refine ⟨by omega, ?_, trivial⟩
    intro cid hcid
    have : cid = 0 := by
      injection hcid with h
      exact h.symm
    rw [this]
    decide
  · exact (hth.2.2 0 1 ⟨by omega, by decide, by decide⟩).2

/-- C6: a freshly allocated cluster id (`get_empty_cluster`, used by
`init_new_cluster` in the Gibbs sweep and by the split move) is the smallest
non-negative integer not currently present in the assignment vector — it is
absent, below N, and everything smaller is present; and in a well-formed
state every active cluster id lies in [0, N) while the active ids are
pairwise distinct. -/
theorem get_empty_cluster_smallest_free :
    (∀ (n : Nat) (l : List Nat), (∃ c, c < n ∧ c ∉ l) →
      get_empty_cluster n l ∉ l ∧ get_empty_cluster n l < n ∧
        ∀ b < get_empty_cluster n l, b ∈ l) ∧
    (∀ s : CRPState, StateWF s →
      (∀ c, s.cpc c ≠ none → c < s.assignment.length) ∧
      (activeClusterIds s).Nodup) := by
  constructor
  · exact fun n l h => get_empty_cluster_spec n l h
  · intro s hwf
    constructor
    · intro c hc
      have h1 := hwf.1 c
      by_cases hz : s.assignment.count c = 0
      · rw [if_pos hz] at h1
        exact absurd h1 hc
      · exact hwf.2 c (List.count_pos_iff.1 (Nat.pos_of_ne_zero hz))
    · exact (List.nodup_range _).filter _

/-- Witness for C6: in the 3-cell assignment [0, 2] view of a partial state,
the allocated id is the smallest absent one. -/
theorem get_empty_cluster_smallest_free_witness :
    (∃ c, c < 3 ∧ c ∉ ([0, 2] : List Nat)) ∧
    (get_empty_cluster 3 [0, 2] ∉ ([0, 2] : List Nat) ∧
      get_empty_cluster 3 [0, 2] < 3 ∧
      ∀ b < get_empty_cluster 3 [0, 2], b ∈ ([0, 2] : List Nat)) := by
  have hfree : ∃ c, c < 3 ∧ c ∉ ([0, 2] : List Nat) :=
    ⟨1, by norm_num, by decide⟩
  exact ⟨hfree, get_empty_cluster_smallest_free.1 3 [0, 2] hfree⟩

/-- C7: `log_CRP_prior` equals log(n_i) − log(n − 1 + α); the table built
by `init_DP_prior` stores that value at index s for every cluster size
s ∈ 1..n and substitutes α for n_i in its final new-cluster entry; and for
fixed n and α the prior is strictly increasing in the cluster size n_i. -/
theorem log_CRP_prior_formula_and_mono :
    (∀ n_i n a : Real, log_CRP_prior n_i n a
        = Real.log n_i - Real.log (n - 1 + a)) ∧
    (∀ (n : Nat) (alpha : Real) (s : Nat), 1 ≤ s → s ≤ n →
      (init_DP_prior n alpha)[s]? = some (log_CRP_prior s n alpha)) ∧
    (∀ (n : Nat) (alpha : Real),
      (init_DP_prior n alpha)[n + 1]? = some (log_CRP_prior alpha n alpha)) ∧
    (∀ (n a n_i n_j : Real), 1 ≤ n_i → n_i < n_j →
      log_CRP_prior n_i n a < log_CRP_prior n_j n a) := by
  refine ⟨fun _ _ _ => rfl, ?_, ?_, ?_⟩
  · intro n alpha s hs1 hsn
    obtain ⟨t, rfl⟩ : ∃ t, s = t + 1 := ⟨s - 1, by omega⟩
    have ht : t < n := by omega
    have htlen : t < ((List.range n).map (fun (i : Nat) => (i : Real) + 1)).length := by
      rw [List.length_map, List.length_range]
      exact ht
    rw [init_DP_prior, List.getElem?_cons_succ, List.getElem?_map,
      List.getElem?_append, if_pos htlen, List.getElem?_map,
      List.getElem?_range ht]
    show some (log_CRP_prior ((t : Real) + 1) n alpha) = _
    have hcast : ((t : Real) + 1) = ((t + 1 : Nat) : Real) := by push_cast; ring
    rw [hcast]
  · intro n alpha
    have hlen : ((List.range n).map (fun (i : Nat) => (i : Real) + 1)).length = n := by
      rw [List.length_map, List.length_range]
    rw [init_DP_prior, List.getElem?_cons_succ, List.getElem?_map,
      List.getElem?_append_right (by rw [hlen]), hlen]
    simp
  · intro n a n_i n_j h1 hlt
    rw [log_CRP_prior, log_CRP_prior]
    have := Real.log_lt_log (by linarith : (0 : Real) < n_i) hlt
    linarith

/-- Witness for C7 at n = 3, α = 2: the table entry for size 1 and the
strict monotonicity from size 1 to size 2. -/
theorem log_CRP_prior_formula_and_mono_witness :
    ((1 : Nat) ≤ 1 ∧ (1 : Nat) ≤ 3 ∧
      (init_DP_prior 3 2)[1]? = some (log_CRP_prior 1 3 2)) ∧
    ((1 : Real) ≤ 1 ∧ (1 : Real) < 2 ∧
      log_CRP_prior 1 3 2 < log_CRP_prior 2 3 2) := by
  refine ⟨⟨le_refl 1, by norm_num, ?_⟩, ⟨le_refl 1, by norm_num, ?_⟩⟩
  · have h := log_CRP_prior_formula_and_mono.2.1 3 2 1 (le_refl 1) (by norm_num)
    rw [h]
    norm_num
  · exact log_CRP_prior_formula_and_mono.2.2.2 3 2 1 2 (le_refl 1) (by norm_num)

/-- C5: `update_DP_alpha` computes w = (a + k − 1)/(n·(b − log η)) and
π = w/(1 + w), draws from Gamma(a + k, b − log η) when the uniform draw is
below π and from Gamma(a + k − 1, b − log η) otherwise, stores the draw
floored at 1 + machine epsilon (so the concentration is always at least
1 + EPSILON), and rebuilds the CRP prior table via `init_DP_prior`. -/
theorem update_DP_alpha_spec (a b : Real) (k n : Nat) (log_eta u : Real)
    (gamma_draw : Real → Real → Real) :
    (update_DP_alpha a b k n log_eta u gamma_draw).DP_alpha
      = max (gamma_draw
          (if u < ((a + k - 1) / (n * (b - log_eta)))
              / (1 + (a + k - 1) / (n * (b - log_eta)))
            then a + k else a + k - 1)
          (b - log_eta)) (1 + EPSILON_R) ∧
    1 + EPSILON_R ≤ (update_DP_alpha a b k n log_eta u gamma_draw).DP_alpha ∧
    (update_DP_alpha a b k n log_eta u gamma_draw).CRP_prior
      = init_DP_prior n
          ((update_DP_alpha a b k n log_eta u gamma_draw).DP_alpha) := by
  refine ⟨?_, ?_, rfl⟩
  · by_cases h : u < ((a + k - 1) / (n * (b - log_eta)))
        / (1 + (a + k - 1) / (n * (b - log_eta)))
    · simp only [update_DP_alpha, if_pos h]
    · simp only [update_DP_alpha, if_neg h]
  · exact le_max_right _ _

/-- C8 (bug evidence): `update_MH_std`'s shrink/grow/clamp behaviour matches
the claim, but the re-seed clause does not: with acceptance counter (10, 0)
(windowed rate 11/11 > 0.55), mult = 1.5 and step sizes (0.8, 0.9, 1.0), the
grown and clamped sizes are all exactly 1, yet the code's re-seed statement
`self.param_proposal_sd + np.array([0.8, 0.9, 1.])` discards its result, so
the returned step sizes are (1, 1, 1) instead of the claimed default spread
(0.8, 0.9, 1.0). -/
theorem update_MH_std_reseed_noop :
    update_MH_std [4/5, 9/10, 1] (10, 0) (3/2) = [1, 1, 1] ∧
    ([1, 1, 1] : List Rat) ≠ [4/5, 9/10, 1] := by
  constructor
  · rw [update_MH_std]
    norm_num
  · intro h
    have h1 : (1 : Rat) = 4/5 := by
      have := congrArg (fun l => l.headD 0) h
      simpa using this
    norm_num at h1

/-- C4 (counterexample): on the two-element log-input (0, −1) — first entry
strictly larger — the fallback of `_normalize_log` returns log-probability 0
for the larger entry, i.e. probability mass exp 0 = 1, not the claimed
1 − machine epsilon. -/
theorem normalize_log_fallback_mass_counterexample :
    normalize_log_fallback 0 (-1) = (0, Real.log EPSILON_R) ∧
    Real.exp (normalize_log_fallback 0 (-1)).1 = 1 ∧
    (1 : Real) ≠ 1 - EPSILON_R := by
  have hEpos : (0 : Real) < EPSILON_R := by
    rw [EPSILON_R]
    norm_num [EPSILON]
  have h : normalize_log_fallback 0 (-1) = (0, Real.log EPSILON_R) := by
    rw [normalize_log_fallback, if_pos (by norm_num : (0:Real) > -1)]
  refine ⟨h, by rw [h]; exact Real.exp_zero, ?_⟩
  intro hc
  have : EPSILON_R = 0 := by linarith
  linarith

/-- C4 (amended): the fallback branch of `_normalize_log` is deterministic
and never raises: it returns the log-probability pair (0, log ε) — mass
exactly 1 (not 1 − ε) for whichever of the two log values is strictly
larger and mass ε for the other; on an exact tie (`probs[0] > probs[1]`
false) the second entry receives the mass-1 slot. -/
theorem normalize_log_fallback_behavior (p0 p1 : Real) :
    (p1 < p0 → normalize_log_fallback p0 p1 = (0, Real.log EPSILON_R) ∧
      Real.exp (normalize_log_fallback p0 p1).1 = 1 ∧
      Real.exp (normalize_log_fallback p0 p1).2 = EPSILON_R) ∧
    (p0 ≤ p1 → normalize_log_fallback p0 p1 = (Real.log EPSILON_R, 0) ∧
      Real.exp (normalize_log_fallback p0 p1).1 = EPSILON_R ∧
      Real.exp (normalize_log_fallback p0 p1).2 = 1) := by
  have hEpos : (0 : Real) < EPSILON_R := by
    rw [EPSILON_R]
    norm_num [EPSILON]
  constructor
  · intro hlt
    have h : normalize_log_fallback p0 p1 = (0, Real.log EPSILON_R) := by
      rw [normalize_log_fallback, if_pos hlt]
    rw [h]
    exact ⟨rfl, Real.exp_zero, Real.exp_log hEpos⟩
  · intro hle
    have h : normalize_log_fallback p0 p1 = (Real.log EPSILON_R, 0) := by
      rw [normalize_log_fallback, if_neg (not_lt.mpr hle)]
    rw [h]
    exact ⟨rfl, Real.exp_log hEpos, Real.exp_zero⟩

/-- Witness for C4's amended behaviour at the inputs (0, −1) and (0, 0). -/
theorem normalize_log_fallback_behavior_witness :
    ((-1 : Real) < 0 ∧ Real.exp (normalize_log_fallback 0 (-1)).1 = 1) ∧
    ((0 : Real) ≤ 0 ∧ Real.exp (normalize_log_fallback 0 0).2 = 1) := by
  refine ⟨⟨by norm_num, ?_⟩, ⟨le_refl 0, ?_⟩⟩
  · exact ((normalize_log_fallback_behavior 0 (-1)).1 (by norm_num)).2.1
  · exact ((normalize_log_fallback_behavior 0 0).2 (le_refl 0)).2.2

lemma np_log_list_ok (args : List Real) (hpos : ∀ a ∈ args, 0 < a) :
    ∃ vs, np_log_list args = Except.ok vs := by
  induction args with
  | nil => exact ⟨[], rfl⟩
  | cons a t ih =>
    obtain ⟨vs, hvs⟩ := ih (fun x hx => hpos x (List.mem_cons_of_mem a hx))
    have ha : np_log a = Except.ok (Real.log a) := by
      rw [np_log, if_neg (not_le.mpr (hpos a (List.mem_cons_self a t)))]
    refine ⟨Real.log a :: vs, ?_⟩
    show (do
        let lx ← np_log a
        let rest ← np_log_list t
        Except.ok (lx :: rest) : Except Unit (List Real))
      = Except.ok (Real.log a :: vs)
    rw [ha, hvs]
    rfl

/-- C3 (counterexample): `_calc_ll` carries no epsilon guard — with
false-positive rate 0, cluster parameter θ = 0 and a present 1-observation,
the Bernoulli mixture is exactly 0 and the `np.log` evaluation raises a
floating-point error instead of returning a finite value. -/
theorem calc_ll_raises_on_vanishing_mixture :
    calc_ll 0 0 [some true] [0] 0 = Except.error () := by
  have harg : calc_ll_logArgs 0 0 [some true] [0] = [0] := by
    simp [calc_ll_logArgs, mixtureLik, Bernoulli_FN, Bernoulli_FP]
  show (do
      let logs ← np_log_list (calc_ll_logArgs 0 0 [some true] [0])
      Except.ok (logs.sum + 0) : Except Unit Real) = Except.error ()
  rw [harg]
  have h0 : np_log_list [0] = Except.error () := by
    show (do
        let lx ← np_log 0
        let rest ← np_log_list []
        Except.ok (lx :: rest) : Except Unit (List Real)) = Except.error ()
    rw [show np_log (0 : Real) = Except.error () from by
      rw [np_log, if_pos le_rfl]]
    rfl
  rw [h0]
  rfl

/-- C3 (amended): the machine-epsilon guard exists where the code installs
it — `log_beta_pdf_short` substitutes ε for a log argument of exactly 0 or 1
and never raises for any input — but it is not applied at every density
site: `_calc_ll` is unguarded and returns a finite value only when every
present feature's Bernoulli mixture is strictly positive (and raises when
one vanishes, see the counterexample). -/
theorem log_guard_sites :
    (∀ x a b : Real, ∃ v, log_beta_pdf_short x a b = Except.ok v) ∧
    (∀ (ae be : Real) (x : List (Option Bool)) (theta : List Real)
        (nan_term : Real),
      (∀ arg ∈ calc_ll_logArgs ae be x theta, 0 < arg) →
      ∃ v, calc_ll ae be x theta nan_term = Except.ok v) := by
  constructor
  · intro x a b
    cases hX : (do
        let lx ← np_log x
        let l1x ← np_log (1 - x)
        Except.ok ((a - 1) * lx + (b - 1) * l1x) : Except Unit Real) with
    | ok v =>
      exact ⟨v, by simp only [log_beta_pdf_short, hX]⟩
    | error e =>
      by_cases hx0 : x = 0
      · exact ⟨(a - 1) * Real.log EPSILON_R,
          by simp only [log_beta_pdf_short, hX]; rw [if_pos hx0]⟩
      · exact ⟨(b - 1) * Real.log EPSILON_R,
          by simp only [log_beta_pdf_short, hX]; rw [if_neg hx0]⟩
  · intro ae be x theta nan_term hpos
    obtain ⟨vs, hvs⟩ := np_log_list_ok _ hpos
    refine ⟨vs.sum + nan_term, ?_⟩
    show (do
        let logs ← np_log_list (calc_ll_logArgs ae be x theta)
        Except.ok (logs.sum + nan_term) : Except Unit Real) = _
    rw [hvs]
    rfl

/-- Witness for C3's amended statement: `log_beta_pdf_short` succeeds at the
boundary input x = 0, and `_calc_ll` succeeds on a strictly positive
mixture (error rates and θ all 1/2). -/
theorem log_guard_sites_witness :
    (∃ v, log_beta_pdf_short 0 2 3 = Except.ok v) ∧
    ((∀ arg ∈ calc_ll_logArgs (1/2) (1/2) [some true] [1/2], 0 < arg) ∧
      ∃ v, calc_ll (1/2) (1/2) [some true] [1/2] 0 = Except.ok v) := by
  have hpos : ∀ arg ∈ calc_ll_logArgs (1/2) (1/2) [some true] [(1/2 : Real)],
      0 < arg := by
    intro arg harg
    simp [calc_ll_logArgs, mixtureLik, Bernoulli_FN, Bernoulli_FP] at harg
    rw [harg]
    norm_num
  exact ⟨log_guard_sites.1 0 2 3,
    ⟨hpos, log_guard_sites.2 (1/2) (1/2) [some true] [1/2] 0 hpos⟩⟩

lemma getD_set_other {alpha : Type} (l : List alpha) (i j : Nat) (v d : alpha)
    (h : i ≠ j) : (l.set i v).getD j d = l.getD j d := by
  rw [List.getD_eq_getElem?_getD, List.getD_eq_getElem?_getD,
    List.getElem?_set_ne h]

lemma getD_set_same {alpha : Type} (l : List alpha) (i : Nat) (v d : alpha)
    (h : i < l.length) : (l.set i v).getD i d = v := by
  have h2 : (l.set i v)[i]? = some v := by
    rw [List.getElem?_set_self']
    simp [List.getElem?_eq_getElem h]
  rw [List.getD_eq_getElem?_getD, h2]
  rfl

lemma stepIter_loop {sigma : Type} (stepFn : sigma → sigma) (steps : Nat)
    (silent : Bool) (h10 : steps / 10 ≠ 0) :
    ∀ (L : List Nat) (st : sigma) (res : List (Option sigma)),
      (∀ k ∈ L, k < res.length) →
      ∃ st2 res2,
        L.foldlM (stepIter stepFn steps silent) (st, res)
          = Except.ok (st2, res2) ∧
        res2.length = res.length ∧
        (∀ k, res.getD k none ≠ none → res2.getD k none ≠ none) ∧
        (∀ k ∈ L, res2.getD k none ≠ none) := by
  intro L
  induction L with
  | nil =>
    intro st res hL
    exact ⟨st, res, rfl, rfl, fun k h => h,
      fun k hk => absurd hk (List.not_mem_nil k)⟩
  | cons a L ih =>
    intro st res hL
    have ha : a < res.length := hL a (List.mem_cons_self a L)
    have hstep : stepIter stepFn steps silent (st, res) a
        = Except.ok (stepFn st, res.set a (some (stepFn st))) := by
      show (do
          let _ ← progress_cond steps a silent
          let st2 := stepFn (st, res).1
          Except.ok (st2, (st, res).2.set a (some st2))
          : Except Unit (sigma × List (Option sigma))) = _
      rw [progress_cond, if_neg h10]
      rfl
    have hL2 : ∀ k ∈ L, k < (res.set a (some (stepFn st))).length := by
      intro k hk
      rw [List.length_set]
      exact hL k (List.mem_cons_of_mem a hk)
    obtain ⟨st2, res2, hfold, hlen, hpres, hwrites⟩ :=
      ih (stepFn st) (res.set a (some (stepFn st))) hL2
    have hpres2 : ∀ k, res.getD k none ≠ none → res2.getD k none ≠ none := by
      intro k hk
      apply hpres
      by_cases hka : k = a
      · subst hka
        rw [getD_set_same res k (some (stepFn st)) none ha]
        simp
      · rw [getD_set_other res a k (some (stepFn st)) none
          (fun h => hka h.symm)]
        exact hk
    have hwa : res2.getD a none ≠ none := by
      apply hpres
      rw [getD_set_same res a (some (stepFn st)) none ha]
      simp
    refine ⟨st2, res2, ?_, ?_, hpres2, ?_⟩
    · rw [List.foldlM_cons, hstep]
      simpa using hfold
    · rw [hlen, List.length_set]
    · intro k hk
      rcases List.mem_cons.mp hk with rfl | hkL
      · exact hwa
      · exact hwrites k hkL

/-- C2 (counterexample): the fixed-step runner does not return a trace for
every step count S — at S = 1 (steps = 2, steps // 10 = 0) the progress
condition divides by zero on the first loop iteration and the run raises
instead of returning a length-2 trace. -/
theorem run_MCMC_steps_raises_at_one_step :
    run_MCMC_steps (fun u : Unit => u) 1 (1/2) () false
      = Except.error () := rfl

/-- C2 (amended): for every fixed-step request whose step count S avoids the
progress-condition division by zero (S = 0, or S ≥ 9 so that
steps // 10 ≥ 1), `_run_MCMC_steps` returns a trace whose arrays have
length S + 1 with every sample slot written, and reports burn-in index
int((S + 1) · f); in particular S = 100, f = 0.5 gives length 101 and
burn-in 50 (see the witness). -/
theorem run_MCMC_steps_trace_shape {sigma : Type} (stepFn : sigma → sigma)
    (S : Nat) (burn_in : Rat) (s0 : sigma) (silent : Bool)
    (hS : S = 0 ∨ 9 ≤ S) :
    ∃ tr : StepsTrace sigma,
      run_MCMC_steps stepFn S burn_in s0 silent = Except.ok tr ∧
      tr.samples.length = S + 1 ∧
      (∀ x ∈ tr.samples, x ≠ none) ∧
      tr.burn_in = pyInt (((S + 1 : Nat) : Rat) * burn_in) := by
  rcases hS with rfl | h9
  · refine ⟨⟨[some s0], pyInt (((0 + 1 : Nat) : Rat) * burn_in)⟩,
      rfl, rfl, ?_, rfl⟩
    intro x hx
    simp at hx
    rw [hx]
    simp
  · have h10 : (S + 1) / 10 ≠ 0 := by
      have hle : 10 ≤ S + 1 := by omega
      exact Nat.pos_iff_ne_zero.mp (Nat.div_pos hle (by norm_num))
    have hinitlen : (init_MCMC_results (S + 1) s0).length = S + 1 := by
      rw [init_MCMC_results, List.length_set, List.length_replicate]
    have hL : ∀ k ∈ List.range' 1 S,
        k < (init_MCMC_results (S + 1) s0).length := by
      intro k hk
      rw [hinitlen]
      have := List.mem_range'_1.mp hk
      omega
    obtain ⟨st2, res2, hfold, hlen, hpres, hwrites⟩ :=
      stepIter_loop stepFn (S + 1) silent h10 (List.range' 1 S) s0
        (init_MCMC_results (S + 1) s0) hL
    refine ⟨⟨res2, pyInt (((S + 1 : Nat) : Rat) * burn_in)⟩, ?_, ?_, ?_, rfl⟩
    · show (do
          let res ← (List.range' 1 S).foldlM
            (stepIter stepFn (S + 1) silent)
            (s0, init_MCMC_results (S + 1) s0)
          Except.ok (⟨res.2, pyInt (((S + 1 : Nat) : Rat) * burn_in)⟩
            : StepsTrace sigma)
          : Except Unit (StepsTrace sigma)) = _
      rw [hfold]
      rfl
    · show res2.length = S + 1
      rw [hlen, hinitlen]
    · intro x hx
      obtain ⟨i, hi, hgi⟩ := List.mem_iff_getElem.mp hx
      have hgd : res2.getD i none = x := by
        rw [List.getD_eq_getElem?_getD, List.getElem?_eq_getElem hi, hgi]
        rfl
      have hi2 : i < S + 1 := by
        have := hi
        rw [hlen, hinitlen] at this
        exact this
      have hnn : res2.getD i none ≠ none := by
        rcases Nat.eq_zero_or_pos i with rfl | hipos
        · apply hpres
          rw [init_MCMC_results, getD_set_same _ 0 (some s0) none
            (by rw [List.length_replicate]; omega)]
          simp
        · exact hwrites i (List.mem_range'_1.mpr ⟨hipos, by omega⟩)
      rw [hgd] at hnn
      exact hnn

/-- Witness for C2's amended statement: the claim's own example, a 100-step
request with burn-in fraction 0.5: trace length 101, every slot written,
burn-in index 50. -/
theorem run_MCMC_steps_trace_shape_witness :
    ((100 : Nat) = 0 ∨ 9 ≤ 100) ∧
    ∃ tr : StepsTrace Unit,
      run_MCMC_steps (fun u : Unit => u) 100 (1/2) () false = Except.ok tr ∧
      tr.samples.length = 101 ∧ (∀ x ∈ tr.samples, x ≠ none) ∧
      tr.burn_in = 50 := by
  obtain ⟨tr, hok, hlen, hall, hburn⟩ :=
    run_MCMC_steps_trace_shape (fun u : Unit => u) 100 (1/2) () false
      (Or.inr (by norm_num))
  refine ⟨Or.inr (by norm_num), tr, hok, hlen, hall, ?_⟩
  rw [hburn, pyInt, if_pos (by norm_num)]
  norm_num

/-- C10 (counterexample): the claim includes S = 0 (S + 1 = 1 < 10), but
with S = 0 the loop `for step in range(1, 1)` never executes, no division
is attempted, and a trace is returned rather than an error. -/
theorem run_MCMC_steps_zero_steps_ok :
    ∃ tr : StepsTrace Unit,
      run_MCMC_steps (fun u : Unit => u) 0 0 () false = Except.ok tr :=
  ⟨_, rfl⟩

/-- C10 (amended): for every step count S with 1 ≤ S ≤ 8 (so
2 ≤ steps ≤ 9 and steps // 10 == 0), `_run_MCMC_steps` raises
ZeroDivisionError when evaluating `step % (steps // 10)` on its first loop
iteration, regardless of the silent flag — no MCMC step completes and no
trace is returned. -/
theorem run_MCMC_steps_short_run_raises {sigma : Type} (stepFn : sigma → sigma)
    (S : Nat) (burn_in : Rat) (s0 : sigma) (silent : Bool)
    (h1 : 1 ≤ S) (h8 : S ≤ 8) :
    run_MCMC_steps stepFn S burn_in s0 silent = Except.error () := by
  have hdiv : (S + 1) / 10 = 0 := by omega
  obtain ⟨T, rfl⟩ : ∃ T, S = T + 1 := ⟨S - 1, by omega⟩
  have hrange : List.range' 1 (T + 1) = 1 :: List.range' 2 T := by
    simpa using List.range'_succ 1 T 1
  show (do
      let res ← (List.range' 1 (T + 1)).foldlM
        (stepIter stepFn (T + 1 + 1) silent)
        (s0, init_MCMC_results (T + 1 + 1) s0)
      Except.ok (⟨res.2, pyInt (((T + 1 + 1 : Nat) : Rat) * burn_in)⟩
        : StepsTrace sigma)
      : Except Unit (StepsTrace sigma)) = Except.error ()
  rw [hrange, List.foldlM_cons]
  have hstep : stepIter stepFn (T + 1 + 1) silent
      (s0, init_MCMC_results (T + 1 + 1) s0) 1 = Except.error () := by
    show (do
        let _ ← progress_cond (T + 1 + 1) 1 silent
        let st2 := stepFn (s0, init_MCMC_results (T + 1 + 1) s0).1
        Except.ok (st2,
          (s0, init_MCMC_results (T + 1 + 1) s0).2.set 1 (some st2))
        : Except Unit (sigma × List (Option sigma))) = Except.error ()
    rw [progress_cond, if_pos hdiv]
    rfl
  rw [hstep]
  rfl

/-- Witness for C10's amended statement at S = 5 with silent = true. -/
theorem run_MCMC_steps_short_run_raises_witness :
    ((1 : Nat) ≤ 5 ∧ (5 : Nat) ≤ 8) ∧
    run_MCMC_steps (fun u : Unit => u) 5 (1/2) () true = Except.error () :=
  ⟨⟨by norm_num, by norm_num⟩,
    run_MCMC_steps_short_run_raises (fun u : Unit => u) 5 (1/2) () true
      (by norm_num) (by norm_num)⟩

/-- C9: trace-storage growth never loses a recorded sample — the zero-block
append of `_extend_results_array` leaves every original entry of all five
arrays unchanged at its original step index, and the cluster-axis padding
of `update_MCMC_results` leaves every original parameter row unchanged at
its original (step, cluster) index. -/
theorem results_growth_preserves_entries {alpha : Type} (z : alpha)
    (cells_total muts_total : Nat) (r : MCMCResults alpha) (k c : Nat)
    (cl_diff : Nat) :
    (k < r.ML.length →
      (extend_results_array z cells_total muts_total r).ML[k]? = r.ML[k]?) ∧
    (k < r.MAP.length →
      (extend_results_array z cells_total muts_total r).MAP[k]? = r.MAP[k]?) ∧
    (k < r.DP_alpha.length →
      (extend_results_array z cells_total muts_total r).DP_alpha[k]?
        = r.DP_alpha[k]?) ∧
    (k < r.assignments.length →
      (extend_results_array z cells_total muts_total r).assignments[k]?
        = r.assignments[k]?) ∧
    (k < r.params.length →
      (extend_results_array z cells_total muts_total r).params[k]?
        = r.params[k]?) ∧
    (∀ mat, r.params[k]? = some mat → c < mat.length →
      ∃ mat2, (pad_params_clusters z cl_diff muts_total r.params)[k]?
          = some mat2 ∧ mat2[c]? = mat[c]?) := by
  refine ⟨?_, ?_, ?_, ?_, ?_, ?_⟩
  · intro hk
    show (r.ML ++ _)[k]? = r.ML[k]?
    rw [List.getElem?_append, if_pos hk]
  · intro hk
    show (r.MAP ++ _)[k]? = r.MAP[k]?
    rw [List.getElem?_append, if_pos hk]
  · intro hk
    show (r.DP_alpha ++ _)[k]? = r.DP_alpha[k]?
    rw [List.getElem?_append, if_pos hk]
  · intro hk
    show (r.assignments ++ _)[k]? = r.assignments[k]?
    rw [List.getElem?_append, if_pos hk]
  · intro hk
    show (r.params ++ _)[k]? = r.params[k]?
    rw [List.getElem?_append, if_pos hk]
  · intro mat hmat hc
    refine ⟨mat ++ List.replicate cl_diff (List.replicate muts_total z),
      ?_, ?_⟩
    · rw [pad_params_clusters, List.getElem?_map, hmat]
      rfl
    · rw [List.getElem?_append, if_pos hc]

/-- Witness for C9 on a one-step, one-cluster results structure. -/
theorem results_growth_preserves_entries_witness :
    ((0 : Nat) < ([7] : List Int).length ∧
      (extend_results_array (0 : Int) 2 1
        ⟨[7], [8], [9], [[1, 2]], [[[3]]]⟩).ML[0]? = some 7) ∧
    (∃ mat2, (pad_params_clusters (0 : Int) 1 1 [[[3]]])[0]? = some mat2 ∧
      mat2[0]? = some [3]) := by
  have h := results_growth_preserves_entries (0 : Int) 2 1
    ⟨[7], [8], [9], [[1, 2]], [[[3]]]⟩ 0 0 1
  constructor
  · refine ⟨by norm_num, ?_⟩
    rw [h.1 (by norm_num)]
    rfl
  · obtain ⟨mat2, hm1, hm2⟩ := h.2.2.2.2.2 [[3]] rfl (by norm_num)
    refine ⟨mat2, hm1, ?_⟩
    rw [hm2]
    rfl
